import Mathlib

/-!
Verification of the natural-language specification of the khliland/river
repository fragment consisting of creme/tree/isoup_tree_regressor.py and
creme/imblearn/random.py.  The Python code is shallowly embedded below:
pure functions become Lean functions, the mutable tree and sampler objects
become explicit state values, dict and Counter lookups become total maps
respectively association lists, and fallible operations return Option.
Parts of the repository that the two files call but that are not part of
the provided sources (the node classes, the Hoeffding tree driver, the
VectorDict utility) are modelled from the specification text; each such
definition carries a doc comment starting with "Modelled from the spec".
-/

namespace River

/-- Target and feature identifiers, as the string keys of the Python dicts. -/
abbrev TKey := String

/-- Modelled from the spec: VectorDict (creme.utils, not under src), a sparse
numeric vector keyed by target identifier with elementwise arithmetic and
default 0 for missing keys.  We model it by its lookup semantics, as a total
function into the rationals. -/
def VecD := TKey → ℚ

/-- The all-zero vector, the value of an empty VectorDict. -/
def VecD.zero : VecD := fun _ => 0

/-- The aggregated statistics dict of a node: observation count at key 0,
elementwise target sum at key 1 and elementwise sum of squares at key 2.
An empty stats dict is represented by a zero count. -/
structure StatsQ where
  count : ℚ
  sum : VecD
  sq : VecD

/-- The statistics of a freshly created node: no observations. -/
def emptyStats : StatsQ := ⟨0, VecD.zero, VecD.zero⟩

/-- Mean-target vector of a statistics record, the value of the Python
expression stats[1] / stats[0]: the target sum divided elementwise by the
observation count.  The result is none when the count is zero, where the
Python division raises and the spec calls the mean undefined. -/
def meanOf (s : StatsQ) : Option VecD :=
  if s.count = 0 then none else some (fun k => s.sum k / s.count)

/-! ### Configuration setters (isoup_tree_regressor.py lines 116-135) -/

/-- Result of running one of the two property setters: the stored value and
whether a diagnostic message was printed. -/
structure SetterResult where
  value : String
  printedDiagnostic : Bool
deriving DecidableEq

/-- The class constant for the target-mean leaf strategy. -/
def TARGET_MEAN : String := "mean"

/-- The class constant for the model leaf strategy, also the default. -/
def MODEL : String := "model"

/-- The class constant for the adaptive leaf strategy. -/
def ADAPTIVE : String := "adaptive"

/-- The leaf_prediction setter, isoup_tree_regressor.py lines 116-123: a value
outside the three known strategies prints a diagnostic and stores the default
strategy "model"; a known value is stored as given. -/
def setLeafPrediction (v : String) : SetterResult :=
  if v = TARGET_MEAN ∨ v = MODEL ∨ v = ADAPTIVE then
    ⟨v, false⟩
  else
    ⟨MODEL, true⟩

/-- The split_criterion setter, isoup_tree_regressor.py lines 125-135: the
value "vr" is first silently remapped to "icvr" (a corner case due to the
parent class initialization); afterwards any value other than "icvr" prints a
diagnostic and stores "icvr", while "icvr" itself is stored silently. -/
def setSplitCriterion (v : String) : SetterResult :=
  let v2 := if v = "vr" then "icvr" else v
  if v2 ≠ "icvr" then
    ⟨"icvr", true⟩
  else
    ⟨v2, false⟩

/-! ### RandomUnderSampler (imblearn/random.py lines 26-52) -/

/-- The observed-class Counter of the sampler, with its keys kept in first
insertion order as Python dicts iterate them. -/
abbrev ClassCounter (K : Type) := List (K × ℕ)

/-- Counter lookup with the Counter default of 0 for an absent key. -/
def countOf {K : Type} [DecidableEq K] (l : ClassCounter K) (y : K) : ℕ :=
  match l with
  | [] => 0
  | (k, c) :: t => if k = y then c else countOf t y

/-- The increment self._actual_dist[y] += 1: an existing key is bumped in
place, a new key is appended with count 1. -/
def counterInc {K : Type} [DecidableEq K] (l : ClassCounter K) (y : K) :
    ClassCounter K :=
  match l with
  | [] => [(y, 1)]
  | (k, c) :: t => if k = y then (k, c + 1) :: t else (k, c) :: counterInc t y

/-- The Python builtin max(keys, key=score) over a list of keys: the first
key attaining the maximal score; none on an empty list (where Python would
raise, a case that cannot occur in fit_one since y was just inserted). -/
def pyMax {K : Type} (score : K → ℚ) : List K → Option K
  | [] => none
  | k :: t => some (t.foldl (fun best c => if score best < score c then c else best) k)

/-- State of a RandomUnderSampler, without the wrapped external classifier:
the desired class distribution (a dict, modelled as a total map), the
observed-class Counter and the current pivot class (None before the first
call). -/
structure USampler (K : Type) where
  desiredDist : K → ℚ
  actualDist : ClassCounter K
  pivot : Option K

/-- RandomUnderSampler.fit_one, imblearn/random.py lines 32-52.  The wrapped
classifier is external, so the result records, besides the new sampler state,
how many times classifier.fit_one was invoked and whether the random number
generator was consumed.  The single random draw the code may take is passed
in as the argument r with 0 <= r < 1; the short-circuit conjunction consumes
the generator only when the computed sampling ratio is below 1.  Dict lookups
into desired_dist are modelled as total maps, and the rational division is
total with division by zero yielding zero where Python would raise. -/
def fitOne {X K : Type} [DecidableEq K] (s : USampler K) (_x : X) (y : K)
    (r : ℚ) : USampler K × ℕ × Bool :=
  let g := counterInc s.actualDist y
  if some y ≠ s.pivot then
    match pyMax (fun k => s.desiredDist k / (countOf g k : ℚ)) (g.map Prod.fst) with
    | none => ({ s with actualDist := g, pivot := none }, 0, false)
    | some pv =>
      let bigM := s.desiredDist pv / (countOf g pv : ℚ)
      let rr := s.desiredDist y / (bigM * (countOf g y : ℚ))
      ({ s with actualDist := g, pivot := some pv },
        (if rr < 1 ∧ r < rr then 1 else 0),
        decide (rr < 1))
  else
    ({ s with actualDist := g }, 1, false)

/-! ### Learning nodes and the node factory
(isoup_tree_regressor.py lines 140-183) -/

/-- The three leaf-prediction strategies of the tree. -/
inductive LeafPrediction where
  | targetMean
  | model
  | adaptive
deriving DecidableEq

/-- Modelled from the spec: a per-target leaf regression model.  The concrete
regressor is an external collaborator (out of scope per the spec), so its
learned state is abstracted to a single observable content value; the oid
field models the Python object identity, so that sharing versus deep copying
of model instances is expressible. -/
structure LeafModel where
  oid : ℕ
  content : ℚ
deriving DecidableEq

/-- The per-target model map of a model or adaptive leaf. -/
abbrev ModelMap := List (TKey × LeafModel)

/-- Modelled from the spec: Python deepcopy of a per-target model map.  The
copy preserves keys and model contents while every copied model instance is a
fresh object; freshness is modelled by renumbering the object identities from
the given supply upwards. -/
def deepcopyModels (fresh : ℕ) : ModelMap → ModelMap
  | [] => []
  | (k, m) :: t => (k, ⟨fresh, m.content⟩) :: deepcopyModels (fresh + 1) t

/-- Modelled from the spec: a candidate split proposed by the attribute
observers of a leaf (the observers themselves are external collaborators).
A candidate carries its merit under the split criterion, its split test (a
numeric binary test on a feature with a threshold; none encodes the implicit
do-not-split candidate) and the aggregated statistics of each branch, used to
seed the child leaves if the split is committed. -/
structure SplitCandidate where
  merit : ℚ
  test : Option (TKey × ℚ)
  branchStats : List StatsQ

/-- A learning node of the tree.  The six Python leaf classes
(Active/Inactive x Mean/ModelMultiTarget/AdaptiveMultiTarget, from the _nodes
module which is not under src) are modelled as one structure tagged with the
strategy and the activity flag; mean leaves simply ignore the model and
fading-error fields.  Modelled from the spec: the constructors initialize the
per-target model map from their argument, the two fading-error maps as empty,
the since-split counter as 0 and the candidate-split list (the external
attribute observers) as empty. -/
structure LearningNode where
  isActive : Bool
  mode : LeafPrediction
  stats : StatsQ
  depth : ℕ
  leaf_models : ModelMap
  fmse_mean : List (TKey × ℚ)
  fmse_model : List (TKey × ℚ)
  counter : ℚ
  cands : List SplitCandidate

/-- iSOUPTreeRegressor._new_learning_node, isoup_tree_regressor.py lines
140-183, translated branch by branch.  The mode argument is the current
leaf_prediction of the tree, and fresh is the object-identity supply consumed
by deepcopy.  Note that in the inactive adaptive branch the source assigns
the attribute _fmse_mean twice in a row (lines 180-181), so the second
assignment overwrites the first and _fmse_model keeps its initial value; the
translation reproduces that. -/
def newLearningNode (mode : LeafPrediction) (initial_stats : Option StatsQ)
    (parent : Option LearningNode) (is_active : Bool) (fresh : ℕ) :
    LearningNode :=
  let stats := initial_stats.getD emptyStats
  let depth := match parent with
    | some p => p.depth + 1
    | none => 0
  let leafModels : ModelMap := match parent with
    | none => []
    | some p => deepcopyModels fresh p.leaf_models
  if is_active then
    match mode with
    | .targetMean => ⟨true, mode, stats, depth, [], [], [], 0, []⟩
    | .model => ⟨true, mode, stats, depth, leafModels, [], [], 0, []⟩
    | .adaptive =>
      let newAdaptive : LearningNode :=
        ⟨true, mode, stats, depth, leafModels, [], [], 0, []⟩
      match parent with
      | some p =>
        { newAdaptive with fmse_mean := p.fmse_mean, fmse_model := p.fmse_model }
      | none => newAdaptive
  else
    match mode with
    | .targetMean => ⟨false, mode, stats, depth, [], [], [], 0, []⟩
    | .model => ⟨false, mode, stats, depth, leafModels, [], [], 0, []⟩
    | .adaptive =>
      let newAdaptive : LearningNode :=
        ⟨false, mode, stats, depth, leafModels, [], [], 0, []⟩
      match parent with
      | some p =>
        let step1 := { newAdaptive with fmse_mean := p.fmse_mean }
        { step1 with fmse_mean := p.fmse_model }
      | none => newAdaptive

/-- The object identities of the model instances held by a model map. -/
def modelOids (m : ModelMap) : List ℕ := m.map (fun e => e.2.oid)

/-! ### The tree -/

/-- A node of the tree: a learning leaf, or a split node owning its test
feature, threshold and list of children indexed by branch outcome.  Modelled
from the spec: split tests are numeric binary tests (nominal attributes are
outside the modelled fragment); the split node keeps the aggregated
statistics of the leaf it replaced. -/
inductive RNode where
  | leaf (ln : LearningNode)
  | split (stats : StatsQ) (feature : TKey) (threshold : ℚ) (children : List RNode)

/-- Whether a node is a leaf, the Python node.is_leaf(). -/
def isLeafNode : RNode → Bool
  | .leaf _ => true
  | .split _ _ _ _ => false

/-- The stats attribute of a node. -/
def nodeStats : RNode → StatsQ
  | .leaf ln => ln.stats
  | .split st _ _ _ => st

/-- Immutable-after-construction configuration of the tree. -/
structure TreeConfig where
  gracePeriod : ℚ
  splitConfidence : ℝ
  tieThreshold : ℝ
  meritRange : ℝ
  binarySplit : Bool
  leafPredictionMode : LeafPrediction

/-- The mutable state of an iSOUPTreeRegressor: its configuration, the
tracked target-key set (the Python set self._targets) and the root node,
which is None until the first training sample. -/
structure TreeState where
  cfg : TreeConfig
  targets : Finset TKey
  root : Option RNode

/-- A freshly constructed tree: empty target set (isoup_tree_regressor.py
line 114) and, modelled from the spec, a root that stays null until the
first sample. -/
def initTree (cfg : TreeConfig) : TreeState := ⟨cfg, ∅, none⟩

/-- Modelled from the spec: Node.filter_instance_to_leaf (the _nodes module
is not under src).  Starting from a node, the traversal follows the branch
selected by the test feature value in x; it stops with (found node, parent)
at a leaf, stops at an internal node when the test feature is missing from
x, and yields (none, split node) when the selected branch has no child. -/
def filterToLeaf (x : TKey → Option ℚ) :
    RNode → Option RNode → Option RNode × Option RNode
  | .leaf ln, parent => (some (.leaf ln), parent)
  | .split st f thr cs, parent =>
    match x f with
    | none => (some (.split st f thr cs), parent)
    | some v =>
      let idx := if v ≤ thr then 0 else 1
      match h : cs[idx]? with
      | none => (none, some (.split st f thr cs))
      | some c => filterToLeaf x c (some (.split st f thr cs))
termination_by n _ => sizeOf n
decreasing_by
  have hm : c ∈ cs := List.getElem?_mem h
  have := List.sizeOf_lt_of_mem hm
  simp only [RNode.split.sizeOf_spec]
  omega

/-- Modelled from the spec: the prediction of a leaf (section 4.4).  The mean
strategy returns the elementwise sum over count, undefined at count 0.  The
model and adaptive strategies delegate to the external per-target leaf
models, which are outside the modelled fragment; the claims settled here do
not depend on them, so the leaf strategy is modelled by the mean strategy. -/
def leafPredictOne (n : RNode) : Option VecD := meanOf (nodeStats n)

/-- iSOUPTreeRegressor.predict_one, isoup_tree_regressor.py lines 215-244.
An untrained tree (null root) returns None, modelled as none.  Otherwise the
instance is filtered from the root: a reached leaf answers with its strategy;
an internal node reached because a test feature was missing from x answers
with its own mean statistics (line 238, with no zero-observation guard: the
division raises at count 0, modelled as none); when no node was found, the
parent recorded by the traversal answers with its mean statistics (line
241). -/
def predictOne (s : TreeState) (x : TKey → Option ℚ) : Option VecD :=
  match s.root with
  | some r =>
    match filterToLeaf x r none with
    | (some n, _) =>
      if isLeafNode n then leafPredictOne n
      else meanOf (nodeStats n)
    | (none, some p) => meanOf (nodeStats p)
    | (none, none) => none
  | none => none

/-! ### Split evaluation (modelled from the spec, section 4.3) -/

/-- Modelled from the spec: the confidence bound
sqrt(R^2 ln(1/split_confidence) / (2n)) with R the value range of the split
criterion and n the observation count of the leaf. -/
noncomputable def hoeffdingBound (range confidence n : ℝ) : ℝ :=
  Real.sqrt (range ^ 2 * Real.log (1 / confidence) / (2 * n))

/-- Descending-merit order on split candidates, used to sort them. -/
def candGE (a b : SplitCandidate) : Prop := b.merit ≤ a.merit

instance : DecidableRel candGE :=
  fun a b => inferInstanceAs (Decidable (b.merit ≤ a.merit))

instance : IsTotal SplitCandidate candGE :=
  ⟨fun a b => le_total b.merit a.merit⟩

instance : IsTrans SplitCandidate candGE :=
  ⟨fun _ _ _ h1 h2 => le_trans h2 h1⟩

/-- Sorting the candidates by descending merit. -/
def sortCands (l : List SplitCandidate) : List SplitCandidate :=
  List.insertionSort candGE l

/-- The implicit do-not-split candidate with merit 0. -/
def nullCand : SplitCandidate := ⟨0, none, []⟩

open Classical in
/-- Modelled from the spec (section 4.3): split evaluation on a leaf whose
since-split counter exceeded the grace period.  The do-not-split candidate
joins the proposals of the observers, the candidates are sorted by
descending merit, and the split commits when m1 - m2 exceeds the confidence
bound or the bound is below the tie threshold with positive m1.  On commit
with a real winner the leaf is replaced by a split node keeping its
statistics, with one child leaf per branch created through the node factory
and seeded with the branch statistics; in every other case the leaf stays,
with statistics retained and its counter reset by the caller. -/
noncomputable def attemptToSplit (cfg : TreeConfig) (ln : LearningNode) : RNode :=
  match sortCands (nullCand :: ln.cands) with
  | c1 :: c2 :: _ =>
    let eps := hoeffdingBound cfg.meritRange cfg.splitConfidence (ln.stats.count : ℝ)
    if ((c1.merit : ℝ) - (c2.merit : ℝ) > eps) ∨
        (eps < cfg.tieThreshold ∧ (0 : ℝ) < (c1.merit : ℝ)) then
      match c1.test with
      | some (f, thr) =>
        RNode.split ln.stats f thr
          (c1.branchStats.map (fun bs =>
            RNode.leaf (newLearningNode ln.mode (some bs) (some ln) true 0)))
      | none => RNode.leaf { ln with counter := 0 }
    else
      RNode.leaf { ln with counter := 0 }
  | _ => RNode.leaf { ln with counter := 0 }

/-! ### Learning -/

/-- Modelled from the spec: the statistics update of a leaf observing the
target vector y with the given sample weight: count grows by the weight, the
sum by weight times y elementwise, the sum of squares by weight times y
squared elementwise, and the since-split counter by the weight. -/
def leafLearnStats (ln : LearningNode) (yv : VecD) (w : ℚ) : LearningNode :=
  { ln with
    stats := ⟨ln.stats.count + w,
              fun k => ln.stats.sum k + w * yv k,
              fun k => ln.stats.sq k + w * yv k * yv k⟩,
    counter := ln.counter + w }

/-- Modelled from the spec: the training traversal of
HoeffdingTreeRegressor.learn_one (not under src).  The instance descends the
branch selected by x at each split node; the reached leaf updates its
statistics and counter, and an active leaf whose counter now exceeds the
grace period runs split evaluation, with the counter reset regardless of
outcome.  The spec is silent on a learning traversal stopped by a missing
feature or a missing child, modelled as leaving the tree unchanged.  Leaf
model training (model and adaptive strategies) delegates to external models
outside the modelled fragment. -/
noncomputable def learnAt (cfg : TreeConfig) (x : TKey → Option ℚ) (yv : VecD)
    (w : ℚ) : RNode → RNode
  | .leaf ln =>
    let ln2 := leafLearnStats ln yv w
    if ln.isActive = true ∧ ln2.counter > cfg.gracePeriod then
      attemptToSplit cfg ln2
    else
      .leaf ln2
  | .split st f thr cs =>
    match x f with
    | none => .split st f thr cs
    | some v =>
      let idx := if v ≤ thr then 0 else 1
      match h : cs[idx]? with
      | none => .split st f thr cs
      | some c => .split st f thr (cs.set idx (learnAt cfg x yv w c))
termination_by n => sizeOf n
decreasing_by
  have := List.sizeOf_lt_of_mem (List.getElem?_mem h)
  simp only [RNode.split.sizeOf_spec]
  omega

/-- The target-vector view of the dict y, the VectorDict wrap of
isoup_tree_regressor.py line 210: lookup with default 0. -/
def yVec (y : List (TKey × ℚ)) : VecD :=
  fun k => ((y.find? (fun e => e.1 = k)).map Prod.snd).getD 0

/-- iSOUPTreeRegressor.learn_one, isoup_tree_regressor.py lines 185-213.
The tracked target set is updated with the keys of y first and
unconditionally (line 208), before any use of the sample weight; y is then
wrapped as a VectorDict and handed to the parent-class trainer, modelled
from the spec: an empty tree creates a root leaf through the factory,
otherwise the instance trains the tree along its traversal. -/
noncomputable def learnOne (s : TreeState) (x : TKey → Option ℚ)
    (y : List (TKey × ℚ)) (w : ℚ) : TreeState :=
  let targets2 := s.targets ∪ (y.map Prod.fst).toFinset
  let yv := yVec y
  let root2 := match s.root with
    | none =>
      some (.leaf (newLearningNode s.cfg.leafPredictionMode none none true 0))
    | some r => some (learnAt s.cfg x yv w r)
  { s with targets := targets2, root := root2 }

/-- A whole stream of learn_one calls, folded left over the tree state. -/
noncomputable def applyAll (s : TreeState)
    (calls : List ((TKey → Option ℚ) × List (TKey × ℚ) × ℚ)) : TreeState :=
  calls.foldl (fun t c => learnOne t c.1 c.2.1 c.2.2) s

/-- Decidable check that every leaf counter in a subtree is at most g. -/
def countersLEb (g : ℚ) : RNode → Bool
  | .leaf ln => decide (ln.counter ≤ g)
  | .split _ _ _ cs => cs.attach.all (fun c => countersLEb g c.1)
termination_by n => sizeOf n
decreasing_by
  have := List.sizeOf_lt_of_mem c.2
  simp only [RNode.split.sizeOf_spec]
  omega

/-! ### Concrete states used by witnesses and counterexamples -/

/-- A configuration for the concrete examples: grace period 200, the other
parameters arbitrary. -/
noncomputable def cfgD : TreeConfig := ⟨200, 1/2, 1/20, 1, false, .targetMean⟩

/-- A fresh active mean-strategy leaf. -/
def leafD : LearningNode := ⟨true, .targetMean, emptyStats, 0, [], [], [], 0, []⟩

/-- Statistics of two observations summing to 6 on target t. -/
def statsD : StatsQ :=
  ⟨2, fun k => if k = "t" then 6 else 0, fun k => if k = "t" then 20 else 0⟩

/-- An internal node with an empty statistics dict: zero observations. -/
def innerD : RNode := .split emptyStats "b" 0 []

/-- A root split node on feature a whose branch-0 child is innerD. -/
def rootD : RNode := .split statsD "a" 0 [innerD]

/-- A tree whose traversal can abort at the zero-count internal node. -/
noncomputable def treeD : TreeState := ⟨cfgD, {"t"}, some rootD⟩

/-- An instance carrying feature a (selecting branch 0) but missing b. -/
def xD : TKey → Option ℚ := fun k => if k = "a" then some (-1) else none

/-- A tree with a single fresh root leaf and an empty target set. -/
noncomputable def treeL : TreeState := ⟨cfgD, ∅, some (.leaf leafD)⟩

/-- An instance with no features at all. -/
def xEmpty : TKey → Option ℚ := fun _ => none

/-- A root split node on feature a with trained statistics, for the C1
witness: every instance missing feature a aborts at this internal node. -/
def rootW : RNode := .split statsD "a" 0 []

/-- The tree owning rootW. -/
noncomputable def treeW : TreeState := ⟨cfgD, {"t"}, some rootW⟩

/-- A parent adaptive node whose two fading-error maps differ. -/
def parentA : LearningNode :=
  ⟨true, .adaptive, emptyStats, 0, [], [("t", 1)], [("t", 2)], 0, []⟩

/-- A parent node owning one trained model with object identity 3. -/
def parentM : LearningNode :=
  ⟨true, .model, emptyStats, 0, [("t", ⟨3, 5⟩)], [], [], 0, []⟩

/-- A split candidate with positive merit and a real test. -/
def candW : SplitCandidate := ⟨1, some ("f", 0), []⟩

/-- A leaf holding the single candidate candW. -/
def lnW : LearningNode := ⟨true, .targetMean, statsD, 0, [], [], [], 201, [candW]⟩

/-- A sampler state whose pivot is class a. -/
def sW : USampler String := ⟨fun _ => 1/2, [("a", 3)], some "a"⟩

/-! ### Helper lemmas -/

theorem countOf_counterInc {K : Type} [DecidableEq K]
    (l : ClassCounter K) (y : K) : countOf (counterInc l y) y = countOf l y + 1 := by
  induction l with
  | nil => simp [counterInc, countOf]
  | cons p t ih =>
    obtain ⟨k, c⟩ := p
    by_cases hk : k = y
    · simp [counterInc, countOf, hk]
    · simp [counterInc, countOf, hk, ih]

theorem set_of_getElem_eq {α : Type} :
    ∀ (l : List α) (i : ℕ) (a : α), l[i]? = some a → l.set i a = l
  | [], _, _, h => by simp at h
  | b :: t, 0, a, h => by
    simp only [List.getElem?_cons_zero, Option.some.injEq] at h
    simp [h]
  | b :: t, i + 1, a, h => by
    simp only [List.getElem?_cons_succ] at h
    simp [set_of_getElem_eq t i a h]

theorem leafLearnStats_zero (ln : LearningNode) (yv : VecD) :
    leafLearnStats ln yv 0 = ln := by
  simp [leafLearnStats, zero_mul, add_zero]

theorem countersLEb_children {g : ℚ} {st : StatsQ} {f : TKey} {thr : ℚ}
    {cs : List RNode} (hc : countersLEb g (.split st f thr cs) = true) :
    ∀ c ∈ cs, countersLEb g c = true := by
  intro c hm
  have h2 : cs.attach.all (fun c => countersLEb g c.1) = true := by
    simpa [countersLEb] using hc
  rw [List.all_eq_true] at h2
  exact h2 ⟨c, hm⟩ (List.mem_attach cs ⟨c, hm⟩)

theorem learnAt_zero (cfg : TreeConfig) (x : TKey → Option ℚ) (yv : VecD) :
    ∀ n : RNode, countersLEb cfg.gracePeriod n = true → learnAt cfg x yv 0 n = n
  | .leaf ln, hc => by
    have hcnt : ln.counter ≤ cfg.gracePeriod := by
      simpa [countersLEb] using hc
    have h0 : leafLearnStats ln yv 0 = ln := leafLearnStats_zero ln yv
    simp only [learnAt, h0]
    rw [if_neg (by rintro ⟨-, hgt⟩; exact absurd hcnt (not_le.mpr hgt))]
  | .split st f thr cs, hc => by
    have hch := countersLEb_children hc
    cases hxf : x f with
    | none => simp [learnAt, hxf]
    | some v =>
      cases hg : cs[if v ≤ thr then 0 else 1]? with
      | none =>
        simp only [learnAt, hxf]
        split
        · rfl
        · rename_i c2 hg2
          rw [hg] at hg2
          cases hg2
      | some c =>
        have hm : c ∈ cs := List.getElem?_mem hg
        have hrec := learnAt_zero cfg x yv c (hch c hm)
        simp only [learnAt, hxf]
        split
        · rfl
        · rename_i c2 hg2
          rw [hg] at hg2
          injection hg2 with hceq
          subst hceq
          rw [hrec, set_of_getElem_eq cs _ c hg]
termination_by n => sizeOf n
decreasing_by
  have := List.sizeOf_lt_of_mem hm
  simp only [RNode.split.sizeOf_spec]
  omega

/-! ### Claim C6 -/

/-- C6 counterexample: the value vr names a criterion other than the
intra-cluster variance reduction criterion icvr, yet the setter accepts it
without printing any diagnostic, refuting the claim that every such value
falls back with a diagnostic. -/
theorem C6_counterexample_vr_silent :
    "vr" ≠ "icvr" ∧ setSplitCriterion "vr" = ⟨"icvr", false⟩ :=
  ⟨by decide, rfl⟩

/-- C6 (amended): an invalid leaf_prediction value falls back to the default
"model" with a diagnostic and a valid one is stored silently; a
split_criterion value other than "icvr" and "vr" falls back to "icvr" with a
diagnostic, while "vr" is remapped to "icvr" silently and "icvr" is stored
silently; neither setter raises. -/
theorem C6_setters_fall_back (v : String) :
    (v ≠ TARGET_MEAN → v ≠ MODEL → v ≠ ADAPTIVE →
      setLeafPrediction v = ⟨MODEL, true⟩)
    ∧ ((v = TARGET_MEAN ∨ v = MODEL ∨ v = ADAPTIVE) →
      setLeafPrediction v = ⟨v, false⟩)
    ∧ (v ≠ "icvr" → v ≠ "vr" → setSplitCriterion v = ⟨"icvr", true⟩)
    ∧ setSplitCriterion "vr" = ⟨"icvr", false⟩
    ∧ setSplitCriterion "icvr" = ⟨"icvr", false⟩ := by
  refine ⟨?_, ?_, ?_, rfl, rfl⟩
  · intro h1 h2 h3
    simp [setLeafPrediction, h1, h2, h3]
  · intro h
    unfold setLeafPrediction
    rw [if_pos h]
  · intro h1 h2
    simp [setSplitCriterion, h1, h2]

/-- C6 witness: the invalid value bogus falls back on both setters with a
diagnostic. -/
theorem C6_setters_fall_back_witness :
    (("bogus" : String) ≠ TARGET_MEAN ∧ ("bogus" : String) ≠ MODEL ∧
      ("bogus" : String) ≠ ADAPTIVE ∧ ("bogus" : String) ≠ "icvr" ∧
      ("bogus" : String) ≠ "vr")
    ∧ setLeafPrediction "bogus" = ⟨MODEL, true⟩
    ∧ setSplitCriterion "bogus" = ⟨"icvr", true⟩ := by
  refine ⟨by decide, ?_, ?_⟩
  · exact (C6_setters_fall_back "bogus").1 (by decide) (by decide) (by decide)
  · exact (C6_setters_fall_back "bogus").2.2.1 (by decide) (by decide)

/-! ### Claim C9 -/

/-- C9: the value vr is accepted silently and remapped to icvr, unlike any
value outside icvr and vr, which prints a diagnostic before falling back to
icvr. -/
theorem C9_vr_silent_remap (v : String) (h1 : v ≠ "icvr") (h2 : v ≠ "vr") :
    setSplitCriterion "vr" = ⟨"icvr", false⟩
    ∧ setSplitCriterion v = ⟨"icvr", true⟩ :=
  ⟨rfl, by simp [setSplitCriterion, h1, h2]⟩

/-- C9 witness at the concrete invalid value gini. -/
theorem C9_vr_silent_remap_witness :
    (("gini" : String) ≠ "icvr" ∧ ("gini" : String) ≠ "vr")
    ∧ (setSplitCriterion "vr" = ⟨"icvr", false⟩
      ∧ setSplitCriterion "gini" = ⟨"icvr", true⟩) :=
  ⟨by decide, C9_vr_silent_remap "gini" (by decide) (by decide)⟩

/-! ### Claim C7 -/

/-- C7: predicting on a tree on which learn_one has never been called does
not raise and returns the explicit no-prediction sentinel None (modelled as
none), not a target-value map. -/
theorem C7_untrained_predicts_none (cfg : TreeConfig) (x : TKey → Option ℚ) :
    predictOne (initTree cfg) x = none := rfl

/-! ### Claim C2 -/

/-- C2: evaluation of the node factory at the failing input.  In adaptive
mode, creating an inactive child of parentA (whose fmse_mean maps t to 1 and
whose fmse_model maps t to 2) yields a leaf whose fmse_mean equals the
parent fmse_model map and whose fmse_model map stays empty, because lines
180-181 of the source assign the attribute _fmse_mean twice in a row; the
claimed verbatim copies hold only in the active branch, shown last. -/
theorem C2_inactive_adaptive_fmse_swapped :
    parentA.fmse_mean = [("t", 1)]
    ∧ parentA.fmse_model = [("t", 2)]
    ∧ (newLearningNode .adaptive none (some parentA) false 0).fmse_mean
        = [("t", 2)]
    ∧ (newLearningNode .adaptive none (some parentA) false 0).fmse_model = []
    ∧ (newLearningNode .adaptive none (some parentA) true 0).fmse_mean
        = [("t", 1)]
    ∧ (newLearningNode .adaptive none (some parentA) true 0).fmse_model
        = [("t", 2)] :=
  ⟨rfl, rfl, rfl, rfl, rfl, rfl⟩

/-! ### Claim C10 -/

/-- C10: RandomUnderSampler.fit_one invokes the wrapped classifier at most
once on every call; whenever y equals the current pivot it invokes it
exactly once, unconditionally and without consuming the random generator;
and the observed-class counter at y grows by exactly one on every call. -/
theorem C10_undersampler_fit (X K : Type) [DecidableEq K] (s : USampler K)
    (x : X) (y : K) (r : ℚ) :
    (fitOne s x y r).2.1 ≤ 1
    ∧ (s.pivot = some y →
        (fitOne s x y r).2.1 = 1 ∧ (fitOne s x y r).2.2 = false)
    ∧ countOf (fitOne s x y r).1.actualDist y = countOf s.actualDist y + 1 := by
  by_cases hp : some y = s.pivot
  · have hres : fitOne s x y r
        = ({ s with actualDist := counterInc s.actualDist y }, 1, false) := by
      simp only [fitOne]
      rw [if_neg (not_not_intro hp)]
    rw [hres]
    exact ⟨le_refl 1, fun _ => ⟨rfl, rfl⟩, countOf_counterInc s.actualDist y⟩
  · refine ⟨?_, fun h => absurd h.symm hp, ?_⟩
    · simp only [fitOne]
      rw [if_pos hp]
      cases pyMax
          (fun k => s.desiredDist k / (countOf (counterInc s.actualDist y) k : ℚ))
          ((counterInc s.actualDist y).map Prod.fst) with
      | none => norm_num
      | some pv =>
        dsimp only
        split_ifs <;> norm_num
    · simp only [fitOne]
      rw [if_pos hp]
      cases pyMax
          (fun k => s.desiredDist k / (countOf (counterInc s.actualDist y) k : ℚ))
          ((counterInc s.actualDist y).map Prod.fst) with
      | none => exact countOf_counterInc s.actualDist y
      | some pv => exact countOf_counterInc s.actualDist y

/-- C10 witness: on the sampler sW whose pivot is the class a, observing
class a trains the classifier exactly once without touching the generator. -/
theorem C10_undersampler_fit_witness :
    sW.pivot = some "a"
    ∧ ((fitOne sW (0 : ℕ) "a" (1/2)).2.1 = 1
      ∧ (fitOne sW (0 : ℕ) "a" (1/2)).2.2 = false) :=
  ⟨rfl, (C10_undersampler_fit ℕ String sW 0 "a" (1/2)).2.1 rfl⟩

/-! ### Claim C8 -/

theorem deepcopyModels_keys (m : ModelMap) :
    ∀ f : ℕ, (deepcopyModels f m).map Prod.fst = m.map Prod.fst := by
  induction m with
  | nil => intro f; rfl
  | cons e t ih =>
    intro f
    obtain ⟨k, lm⟩ := e
    simp [deepcopyModels, ih]

theorem deepcopyModels_content (m : ModelMap) :
    ∀ (f : ℕ) (i : ℕ),
      ((deepcopyModels f m)[i]?).map (fun e => e.2.content)
        = (m[i]?).map (fun e => e.2.content) := by
  induction m with
  | nil => intro f i; rfl
  | cons e t ih =>
    intro f i
    obtain ⟨k, lm⟩ := e
    cases i with
    | zero => simp [deepcopyModels]
    | succ j => simp [deepcopyModels, ih]

theorem deepcopyModels_oids_ge (m : ModelMap) :
    ∀ (f : ℕ) (o : ℕ), o ∈ modelOids (deepcopyModels f m) → f ≤ o := by
  induction m with
  | nil => intro f o h; simp [deepcopyModels, modelOids] at h
  | cons e t ih =>
    intro f o h
    obtain ⟨k, lm⟩ := e
    simp only [deepcopyModels, modelOids, List.map_cons, List.mem_cons] at h
    rcases h with h | h
    · exact le_of_eq h.symm
    · have := ih (f + 1) o (by simpa [modelOids] using h)
      omega

theorem newLearningNode_models (mode : LeafPrediction)
    (hm : mode = .model ∨ mode = .adaptive) (p : LearningNode) (a : Bool)
    (fresh : ℕ) :
    (newLearningNode mode none (some p) a fresh).leaf_models
      = deepcopyModels fresh p.leaf_models := by
  rcases hm with h | h <;> subst h <;> cases a <;> rfl

theorem newLearningNode_models_root (mode : LeafPrediction)
    (hm : mode = .model ∨ mode = .adaptive) (a : Bool) (fresh : ℕ) :
    (newLearningNode mode none none a fresh).leaf_models = [] := by
  rcases hm with h | h <;> subst h <;> cases a <;> rfl

/-- C8: in model and adaptive modes, a leaf created by the factory with a
parent starts with a deep copy of the parent per-target model map: same
keys, same model contents position by position, and no model object shared
with any previously existing one (its object identities avoid any set of
identities older than the fresh supply); a leaf created with no parent
starts with an empty model map. -/
theorem C8_models_deepcopied (mode : LeafPrediction)
    (hm : mode = .model ∨ mode = .adaptive) (p : LearningNode) (a : Bool)
    (fresh : ℕ) (used : List ℕ) (hU : ∀ o ∈ used, o < fresh) :
    ((newLearningNode mode none (some p) a fresh).leaf_models.map Prod.fst
        = p.leaf_models.map Prod.fst)
    ∧ (∀ i : ℕ,
        ((newLearningNode mode none (some p) a fresh).leaf_models[i]?).map
            (fun e => e.2.content)
          = (p.leaf_models[i]?).map (fun e => e.2.content))
    ∧ (∀ o ∈ modelOids (newLearningNode mode none (some p) a fresh).leaf_models,
        o ∉ used)
    ∧ (newLearningNode mode none none a fresh).leaf_models = [] := by
  have hmod := newLearningNode_models mode hm p a fresh
  refine ⟨?_, ?_, ?_, newLearningNode_models_root mode hm a fresh⟩
  · rw [hmod]
    exact deepcopyModels_keys p.leaf_models fresh
  · intro i
    rw [hmod]
    exact deepcopyModels_content p.leaf_models fresh i
  · intro o ho hin
    rw [hmod] at ho
    have h1 := deepcopyModels_oids_ge p.leaf_models fresh o ho
    have h2 := hU o hin
    omega

/-- C8 witness: copying the single model of parentM with fresh supply 4
keeps the key and avoids the previously used identities 0 to 3. -/
theorem C8_models_deepcopied_witness :
    ((LeafPrediction.model = LeafPrediction.model ∨
        LeafPrediction.model = LeafPrediction.adaptive)
      ∧ (∀ o ∈ [(0 : ℕ), 1, 2, 3], o < 4))
    ∧ ((newLearningNode .model none (some parentM) true 4).leaf_models.map
          Prod.fst
        = parentM.leaf_models.map Prod.fst)
    ∧ (∀ o ∈ modelOids (newLearningNode .model none (some parentM) true
          4).leaf_models,
        o ∉ [(0 : ℕ), 1, 2, 3]) := by
  refine ⟨⟨Or.inl rfl, by decide⟩, ?_, ?_⟩
  · exact (C8_models_deepcopied .model (Or.inl rfl) parentM true 4
      [0, 1, 2, 3] (by decide)).1
  · exact (C8_models_deepcopied .model (Or.inl rfl) parentM true 4
      [0, 1, 2, 3] (by decide)).2.2.1

/-! ### Claim C4 -/

/-- C4 counterexample: on the tree treeL, with an initialized root leaf and
an empty tracked target set, a learn_one call with sample weight 0 and a
target dict mapping t to 1 changes the tracked target set, so the call is
not a no-op: line 208 updates the target set before any use of the weight. -/
theorem C4_counterexample_targets_change :
    treeL.targets = ∅
    ∧ (learnOne treeL xEmpty [("t", 1)] 0).targets = {"t"} := by
  refine ⟨rfl, ?_⟩
  simp [learnOne, treeL]

/-- C4 (amended): a learn_one call with sample weight 0 on a tree with an
existing root, all of whose leaf counters are within the grace period,
leaves the node structure, statistics and counters unchanged but still
replaces the tracked target set by its union with the keys of y. -/
theorem C4_zero_weight_only_targets (s : TreeState) (x : TKey → Option ℚ)
    (y : List (TKey × ℚ)) (r : RNode) (hr : s.root = some r)
    (hc : countersLEb s.cfg.gracePeriod r = true) :
    learnOne s x y 0
      = { s with targets := s.targets ∪ (y.map Prod.fst).toFinset } := by
  have h0 : learnAt s.cfg x (yVec y) 0 r = r :=
    learnAt_zero s.cfg x (yVec y) r hc
  simp only [learnOne, hr, h0]

/-- C4 witness: the zero-weight call on treeL changes exactly the target
set. -/
theorem C4_zero_weight_only_targets_witness :
    (treeL.root = some (.leaf leafD)
      ∧ countersLEb treeL.cfg.gracePeriod (.leaf leafD) = true)
    ∧ learnOne treeL xEmpty [("t", 1)] 0
        = { treeL with
              targets := treeL.targets ∪
                (([("t", (1 : ℚ))]).map Prod.fst).toFinset } := by
  have hc : countersLEb treeL.cfg.gracePeriod (.leaf leafD) = true := by
    simp [countersLEb, leafD, treeL, cfgD]
  exact ⟨⟨rfl, hc⟩,
    C4_zero_weight_only_targets treeL xEmpty [("t", 1)] (.leaf leafD) rfl hc⟩

/-! ### Claim C5 -/

theorem targets_subset_learnOne (s : TreeState) (x : TKey → Option ℚ)
    (y : List (TKey × ℚ)) (w : ℚ) :
    s.targets ⊆ (learnOne s x y w).targets := by
  simp only [learnOne]
  exact Finset.subset_union_left

theorem targets_subset_foldl
    (l : List ((TKey → Option ℚ) × List (TKey × ℚ) × ℚ)) :
    ∀ s : TreeState,
      s.targets ⊆ (l.foldl (fun t c => learnOne t c.1 c.2.1 c.2.2) s).targets := by
  induction l with
  | nil => intro s; exact Finset.Subset.refl _
  | cons c t ih =>
    intro s
    simp only [List.foldl_cons]
    exact (targets_subset_learnOne s c.1 c.2.1 c.2.2).trans (ih _)

/-- C5: the tracked target set is append-only under learn_one: after any N
calls of a stream it contains the set after any earlier prefix of M calls,
for M at most N; no call removes a key. -/
theorem C5_targets_monotone (s : TreeState)
    (calls : List ((TKey → Option ℚ) × List (TKey × ℚ) × ℚ)) (M N : ℕ)
    (h : M ≤ N) :
    (applyAll s (calls.take M)).targets ⊆ (applyAll s (calls.take N)).targets := by
  have hsplit : calls.take N = calls.take M ++ (calls.take N).drop M := by
    conv_lhs => rw [← List.take_append_drop M (calls.take N)]
    rw [List.take_take, min_eq_left h]
  have hfold : applyAll s (calls.take N)
      = applyAll (applyAll s (calls.take M)) ((calls.take N).drop M) := by
    conv_lhs => rw [hsplit]
    simp only [applyAll, List.foldl_append]
  rw [hfold]
  simpa only [applyAll] using
    targets_subset_foldl ((calls.take N).drop M) (applyAll s (calls.take M))

/-- C5 witness on a two-call stream adding targets t then u. -/
theorem C5_targets_monotone_witness :
    (1 : ℕ) ≤ 2
    ∧ (applyAll treeL
          (([(xEmpty, [("t", (1 : ℚ))], 1),
             (xEmpty, [("u", (2 : ℚ))], 1)]).take 1)).targets
      ⊆ (applyAll treeL
          (([(xEmpty, [("t", (1 : ℚ))], 1),
             (xEmpty, [("u", (2 : ℚ))], 1)]).take 2)).targets :=
  ⟨by decide, C5_targets_monotone treeL _ 1 2 (by decide)⟩

/-! ### Claim C1 -/

/-- C1 (amended): when the predict traversal stops at an internal node
because a test feature is missing from x, the prediction uses the mean
statistics of that node itself, unconditionally: at zero observations the
division fails and no result is produced, with no fallback to the parent.
The mean statistics of the node recorded as parent are used only in the
distinct case where the traversal returns no node because the selected
branch has no child. -/
theorem C1_internal_node_prediction (s : TreeState) (x : TKey → Option ℚ)
    (r : RNode) (hr : s.root = some r) :
    (∀ (n : RNode) (p : Option RNode),
      filterToLeaf x r none = (some n, p) → isLeafNode n = false →
        predictOne s x = meanOf (nodeStats n))
    ∧ (∀ q : RNode, filterToLeaf x r none = (none, some q) →
        predictOne s x = meanOf (nodeStats q)) := by
  constructor
  · intro n p hf hl
    simp only [predictOne, hr, hf, hl]
    simp [leafPredictOne]
  · intro q hf
    simp only [predictOne, hr, hf]

/-- C1 witness: the instance xEmpty misses feature a and aborts at the
trained root split node rootW, whose own mean statistics answer. -/
theorem C1_internal_node_prediction_witness :
    (treeW.root = some rootW
      ∧ filterToLeaf xEmpty rootW none = (some rootW, none)
      ∧ isLeafNode rootW = false)
    ∧ predictOne treeW xEmpty = meanOf (nodeStats rootW) := by
  have hf : filterToLeaf xEmpty rootW none = (some rootW, none) := by
    simp [filterToLeaf, rootW, xEmpty]
  exact ⟨⟨rfl, hf, rfl⟩,
    (C1_internal_node_prediction treeW xEmpty rootW rfl).1 rootW none hf rfl⟩

/-- C1 counterexample: on treeD the instance xD selects branch 0 at the root
and then aborts at the internal node innerD because feature b is missing.
The node innerD has zero observations; line 238 still divides by its count,
so no result is produced, while the claim promises a fallback to the mean
statistics of the parent rootD, which are available.  So the claimed
parent fallback and the claimed guaranteed result do not exist in the
code. -/
theorem C1_counterexample_no_parent_fallback :
    filterToLeaf xD rootD none = (some innerD, some rootD)
    ∧ meanOf (nodeStats innerD) = none
    ∧ predictOne treeD xD = none
    ∧ meanOf (nodeStats rootD) ≠ none
    ∧ predictOne treeD xD ≠ meanOf (nodeStats rootD) := by
  have h2 : xD "b" = none := rfl
  have hinner : ∀ pr : Option RNode,
      filterToLeaf xD (RNode.split emptyStats "b" 0 []) pr
        = (some (RNode.split emptyStats "b" 0 []), pr) := by
    intro pr
    simp [filterToLeaf, h2]
  have hf : filterToLeaf xD rootD none = (some innerD, some rootD) := by
    norm_num [filterToLeaf, rootD, innerD, xD]
    split
    · rename_i hnone
      exact Option.noConfusion hnone
    · rename_i c hsome
      injection hsome with hce
      subst hce
      exact hinner _
  have hm : meanOf (nodeStats innerD) = none := by
    simp [meanOf, nodeStats, innerD, emptyStats]
  have hp : predictOne treeD xD = none := by
    simp only [predictOne, treeD, hf]
    simp [isLeafNode, innerD, hm, nodeStats, meanOf, emptyStats]
  have hr : meanOf (nodeStats rootD) ≠ none := by
    simp [meanOf, nodeStats, rootD, statsD]
  exact ⟨hf, hm, hp, hr, by rw [hp]; exact fun h => hr h.symm⟩

/-! ### Claim C3 -/

/-- C3: the split evaluation commits exactly under the stated decision rule.
With the candidate list (including the implicit do-not-split candidate of
merit 0) sorted by descending merit into c1 :: c2 :: rest, the merit of c1
bounds every proposed merit and the merit of c2 bounds the rest; when
m1 - m2 exceeds the confidence bound sqrt(R^2 ln(1/split_confidence)/(2n))
or that bound is below the tie threshold with m1 positive, the leaf is
replaced by a split node on the winning test with one factory child per
branch seeded with the branch statistics (or kept when the winner is the
do-not-split candidate); otherwise the leaf is kept with its statistics
retained and only its counter reset. -/
theorem C3_split_commit_rule (cfg : TreeConfig) (ln : LearningNode)
    (c1 c2 : SplitCandidate) (rest : List SplitCandidate)
    (hs : sortCands (nullCand :: ln.cands) = c1 :: c2 :: rest) :
    (∀ c ∈ nullCand :: ln.cands, c.merit ≤ c1.merit)
    ∧ (∀ c ∈ rest, c.merit ≤ c2.merit)
    ∧ (((c1.merit : ℝ) - (c2.merit : ℝ) >
          hoeffdingBound cfg.meritRange cfg.splitConfidence (ln.stats.count : ℝ)
        ∨ (hoeffdingBound cfg.meritRange cfg.splitConfidence (ln.stats.count : ℝ)
              < cfg.tieThreshold ∧ (0 : ℝ) < (c1.merit : ℝ))) →
        ((∀ (f : TKey) (thr : ℚ), c1.test = some (f, thr) →
            attemptToSplit cfg ln = RNode.split ln.stats f thr
              (c1.branchStats.map (fun bs =>
                RNode.leaf (newLearningNode ln.mode (some bs) (some ln) true 0))))
          ∧ (c1.test = none →
              attemptToSplit cfg ln = RNode.leaf { ln with counter := 0 })))
    ∧ (¬((c1.merit : ℝ) - (c2.merit : ℝ) >
          hoeffdingBound cfg.meritRange cfg.splitConfidence (ln.stats.count : ℝ)
        ∨ (hoeffdingBound cfg.meritRange cfg.splitConfidence (ln.stats.count : ℝ)
              < cfg.tieThreshold ∧ (0 : ℝ) < (c1.merit : ℝ))) →
        attemptToSplit cfg ln = RNode.leaf { ln with counter := 0 }) := by
  have hsorted : List.Sorted candGE (c1 :: c2 :: rest) := by
    rw [← hs]
    exact List.sorted_insertionSort candGE _
  have hperm : List.Perm (c1 :: c2 :: rest) (nullCand :: ln.cands) := by
    rw [← hs]
    exact List.perm_insertionSort candGE _
  obtain ⟨h12, hsorted2⟩ := List.pairwise_cons.mp hsorted
  obtain ⟨h2rest, -⟩ := List.pairwise_cons.mp hsorted2
  refine ⟨?_, h2rest, ?_, ?_⟩
  · intro c hc
    rcases List.mem_cons.mp (hperm.symm.subset hc) with h | h
    · cases h
      exact le_refl _
    · exact h12 c h
  · intro hcond
    constructor
    · intro f thr htest
      simp only [attemptToSplit, hs]
      rw [if_pos hcond, htest]
    · intro htest
      simp only [attemptToSplit, hs]
      rw [if_pos hcond, htest]
  · intro hcond
    simp only [attemptToSplit, hs]
    rw [if_neg hcond]

/-- C3 witness on the leaf lnW whose single proposal candW has merit 1: the
sorted order puts candW first and the do-not-split candidate second. -/
theorem C3_split_commit_rule_witness :
    sortCands (nullCand :: lnW.cands) = candW :: nullCand :: []
    ∧ (∀ c ∈ nullCand :: lnW.cands, c.merit ≤ candW.merit) := by
  have hs : sortCands (nullCand :: lnW.cands) = candW :: nullCand :: [] := by
    norm_num [sortCands, lnW, candW, nullCand, List.insertionSort,
      List.orderedInsert, candGE]
  exact ⟨hs, (C3_split_commit_rule cfgD lnW candW nullCand [] hs).1⟩

end River
